import Mathlib

/-!
Verification of the Monmouth node state-storage layer: the Change Set merge
algebra, the speculative Overlay State, the thread-safe QMDB handle's read
fallbacks, and the Snapshot Store's persistence bookkeeping and
ancestor-chain reconstruction.

Sources embedded here:
- `src/examples/revm/src/application/ledger/overlay.rs` (`OverlayState`)
- `src/examples/revm/src/application/ledger/snapshot_store.rs`
  (`LedgerSnapshot`, `SnapshotStore`)
- `src/crates/storage/handlers/src/state.rs` and `src/crates/storage/handlers/src/qmdb.rs`
  (`QmdbHandle` and its `StateDbRead` / `StateDbWrite` implementations)
- `src/crates/storage/traits/src/state.rs` (the `StateDbRead::exists` default method)
- `src/crates/storage/traits/src/error.rs` (`StateDbError`)

The `kora_qmdb` crate's store module (`ChangeSet`, `AccountUpdate`,
`QmdbStore`) is not part of the sources; those definitions are modelled from
the specification's words and are marked `Modelled from the spec:` below.

Machine integers (`u64`, `U256`, 32-byte digests, addresses) are embedded as
`Nat`: none of the verified operations performs arithmetic on them, they are
only stored, compared and looked up, so wrap-around never arises. Ordered
maps (`BTreeMap`) and sets (`BTreeSet`) are embedded by their lookup
functions: a `BTreeMap K V` becomes `K → Option V` and a `BTreeSet K`
becomes `K → Bool`, with insertion and removal as pointwise update; the
claims under verification only ever observe these containers through
`get` / `contains`, never through iteration order.
-/

namespace Monmouth

/-- Consensus digest (`ConsensusDigest`, an opaque 32-byte identifier). -/
abbrev Digest := Nat

/-- Account address (`alloy_primitives::Address`). -/
abbrev Addr := Nat

/-- Storage slot index (`alloy_primitives::U256`). -/
abbrev Slot := Nat

/-- 256-bit word value (`alloy_primitives::U256`). -/
abbrev U256 := Nat

/-- 32-byte hash (`alloy_primitives::B256`). -/
abbrev Hash := Nat

/-- Raw bytecode (`Vec<u8>` / `Bytes`). -/
abbrev Bytes := List Nat

/-- Error type of `src/crates/storage/traits/src/error.rs` (`StateDbError`). -/
inductive StateDbError where
  | accountNotFound (address : Addr)
  | codeNotFound (code_hash : Hash)
  | storage (msg : String)
  | lockPoisoned
  | rootComputation (msg : String)
deriving DecidableEq

/-- Modelled from the spec: `kora_qmdb::AccountUpdate` (the `kora_qmdb` store
module is not under `src/`; only its traits, its root computation and its
callers are). Spec §3: "Account Update (element of a Change Set) — {created:
bool, selfdestructed: bool, nonce, balance, code_hash, code: optional bytes,
storage: ordered map slot→value}". The storage map is embedded by its lookup
function. -/
structure AccountUpdate where
  created : Bool
  selfdestructed : Bool
  nonce : Nat
  balance : U256
  code_hash : Hash
  code : Option Bytes
  storage : Slot → Option U256

/-- Modelled from the spec: union of two storage maps in which the newer
map's slot values override the older ones (spec §3: "storage maps are
unioned with newer slot values overriding older ones"). -/
def mergeStorage (older newer : Slot → Option U256) : Slot → Option U256 :=
  fun s =>
    match newer s with
    | some v => some v
    | none => older s

/-- Modelled from the spec: merging an older Account Update with a newer one
(spec §3: "merging an older Change Set with a newer one over the same
address must produce the newer account's scalar fields
(nonce/balance/code/created/selfdestructed) while storage maps are unioned
with newer slot values overriding older ones"). -/
def AccountUpdate.merge (older newer : AccountUpdate) : AccountUpdate :=
  { created := newer.created
    selfdestructed := newer.selfdestructed
    nonce := newer.nonce
    balance := newer.balance
    code_hash := newer.code_hash
    code := newer.code
    storage := mergeStorage older.storage newer.storage }

/-- Modelled from the spec: `kora_qmdb::ChangeSet` (not under `src/`).
Spec §3: "Change Set — ordered map address → Account Update", embedded by
its lookup function. -/
structure ChangeSet where
  accounts : Addr → Option AccountUpdate

/-- The empty Change Set (`ChangeSet::new` / `ChangeSet::default`). -/
def ChangeSet.empty : ChangeSet :=
  ⟨fun _ => none⟩

/-- Modelled from the spec: `ChangeSet::merge` — `older.merge(newer)`
combines the two account maps, merging the two Account Updates wherever
both sides carry the same address. -/
def ChangeSet.merge (older newer : ChangeSet) : ChangeSet :=
  ⟨fun a =>
    match older.accounts a, newer.accounts a with
    | some u, some v => some (AccountUpdate.merge u v)
    | some u, none => some u
    | none, some v => some v
    | none, none => none⟩

lemma AccountUpdate.eq_of_fields {u v : AccountUpdate}
    (h1 : u.created = v.created) (h2 : u.selfdestructed = v.selfdestructed)
    (h3 : u.nonce = v.nonce) (h4 : u.balance = v.balance)
    (h5 : u.code_hash = v.code_hash) (h6 : u.code = v.code)
    (h7 : u.storage = v.storage) : u = v := by
  cases u; cases v
  simp_all

lemma ChangeSet.eq_of_accounts {x y : ChangeSet} (h : x.accounts = y.accounts) : x = y := by
  cases x; cases y
  simp_all

lemma mergeStorage_assoc (f g k : Slot → Option U256) :
    mergeStorage (mergeStorage f g) k = mergeStorage f (mergeStorage g k) := by
  funext s
  simp only [mergeStorage]
  cases k s <;> cases g s <;> rfl

lemma accountUpdate_merge_assoc (u v w : AccountUpdate) :
    (u.merge v).merge w = u.merge (v.merge w) := by
  apply AccountUpdate.eq_of_fields <;>
    simp [AccountUpdate.merge, mergeStorage_assoc]

lemma changeSet_merge_assoc (A B C : ChangeSet) :
    (A.merge B).merge C = A.merge (B.merge C) := by
  apply ChangeSet.eq_of_accounts
  funext a
  simp only [ChangeSet.merge]
  cases A.accounts a <;> cases B.accounts a <;> cases C.accounts a <;>
    simp [accountUpdate_merge_assoc]

/-- C3: Change-set merge is associative, and merging an older Change Set
with a newer one over a common address yields the newer update's scalar
fields (nonce, balance, code hash, code, created, selfdestructed) while the
two storage maps are unioned with the newer slot values overriding the
older ones. -/
theorem changeset_merge_assoc_override (A B C : ChangeSet) :
    (A.merge B).merge C = A.merge (B.merge C) ∧
    (∀ a u v, A.accounts a = some u → B.accounts a = some v →
      (A.merge B).accounts a = some (AccountUpdate.merge u v)) ∧
    (∀ u v : AccountUpdate,
      (AccountUpdate.merge u v).nonce = v.nonce ∧
      (AccountUpdate.merge u v).balance = v.balance ∧
      (AccountUpdate.merge u v).code_hash = v.code_hash ∧
      (AccountUpdate.merge u v).code = v.code ∧
      (AccountUpdate.merge u v).created = v.created ∧
      (AccountUpdate.merge u v).selfdestructed = v.selfdestructed ∧
      (∀ s x, v.storage s = some x → (AccountUpdate.merge u v).storage s = some x) ∧
      (∀ s, v.storage s = none → (AccountUpdate.merge u v).storage s = u.storage s)) := by
  refine ⟨changeSet_merge_assoc A B C, ?_, ?_⟩
  · intro a u v hu hv
    simp [ChangeSet.merge, hu, hv]
  · intro u v
    refine ⟨rfl, rfl, rfl, rfl, rfl, rfl, ?_, ?_⟩
    · intro s x hx
      simp [AccountUpdate.merge, mergeStorage, hx]
    · intro s hs
      simp [AccountUpdate.merge, mergeStorage, hs]

/-- Speculative read/write view layering an uncommitted Change Set on a base
state (`OverlayState<S>` of
`src/examples/revm/src/application/ledger/overlay.rs`; the `Arc` around the
Change Set is an immutable shared reference and is dropped in the
embedding). -/
structure OverlayState (S : Type) where
  base : S
  changes : ChangeSet

/-- `OverlayState::new` (overlay.rs). -/
def OverlayState.new {S : Type} (base : S) (changes : ChangeSet) : OverlayState S :=
  ⟨base, changes⟩

/-- `OverlayState::merge_changes` (overlay.rs lines 19–23): the overlay's own
Change Set is the older side, the caller's the newer. -/
def OverlayState.merge_changes {S : Type} (o : OverlayState S) (newer : ChangeSet) : ChangeSet :=
  ChangeSet.merge o.changes newer

/-- `StateDbRead::nonce` for `OverlayState<S>` (overlay.rs): the base's
`nonce` method is passed explicitly, standing for the `S: StateDbRead`
bound. -/
def OverlayState.nonce {S : Type} (base_nonce : S → Addr → Except StateDbError Nat)
    (o : OverlayState S) (address : Addr) : Except StateDbError Nat :=
  match o.changes.accounts address with
  | some update => .ok update.nonce
  | none => base_nonce o.base address

/-- `StateDbRead::balance` for `OverlayState<S>` (overlay.rs). -/
def OverlayState.balance {S : Type} (base_balance : S → Addr → Except StateDbError U256)
    (o : OverlayState S) (address : Addr) : Except StateDbError U256 :=
  match o.changes.accounts address with
  | some update => .ok update.balance
  | none => base_balance o.base address

/-- `StateDbRead::code_hash` for `OverlayState<S>` (overlay.rs). -/
def OverlayState.code_hash {S : Type} (base_code_hash : S → Addr → Except StateDbError Hash)
    (o : OverlayState S) (address : Addr) : Except StateDbError Hash :=
  match o.changes.accounts address with
  | some update => .ok update.code_hash
  | none => base_code_hash o.base address

/-- `StateDbRead::storage` for `OverlayState<S>` (overlay.rs lines 97–120):
selfdestructed accounts read zero; a slot present in the update's storage
map is returned; a created account's absent slots read zero; everything
else delegates to the base. -/
def OverlayState.storage {S : Type} (base_storage : S → Addr → Slot → Except StateDbError U256)
    (o : OverlayState S) (address : Addr) (slot : Slot) : Except StateDbError U256 :=
  match o.changes.accounts address with
  | some update =>
    if update.selfdestructed then .ok 0
    else
      match update.storage slot with
      | some value => .ok value
      | none =>
        if update.created then .ok 0
        else base_storage o.base address slot
  | none => base_storage o.base address slot

/-- `StateDbWrite::commit` for `OverlayState<S>` (overlay.rs lines 124–136):
merge the caller's Change Set on top of the overlay's own, then delegate to
the base's `commit`. -/
def OverlayState.commit {S : Type} (base_commit : S → ChangeSet → Except StateDbError Hash)
    (o : OverlayState S) (changes : ChangeSet) : Except StateDbError Hash :=
  base_commit o.base (ChangeSet.merge o.changes changes)

/-- `StateDbWrite::compute_root` for `OverlayState<S>` (overlay.rs lines
138–149): merge the caller's Change Set on top of the overlay's own, then
delegate to the base's `compute_root`. -/
def OverlayState.compute_root {S : Type} (base_compute : S → ChangeSet → Except StateDbError Hash)
    (o : OverlayState S) (changes : ChangeSet) : Except StateDbError Hash :=
  base_compute o.base (ChangeSet.merge o.changes changes)

/-- C2: overlay storage reads — zero for a selfdestructed update regardless
of the base; the stored value when the slot is in the update's storage map;
zero (never the base's value) for a slot absent from a created update; and
the base state's value otherwise, including when the address has no update
at all. -/
theorem overlay_storage_read_spec (S : Type)
    (base_storage : S → Addr → Slot → Except StateDbError U256)
    (b : S) (c : ChangeSet) (a : Addr) (s : Slot) :
    (∀ u, c.accounts a = some u → u.selfdestructed = true →
      OverlayState.storage base_storage ⟨b, c⟩ a s = .ok 0) ∧
    (∀ u v, c.accounts a = some u → u.selfdestructed = false → u.storage s = some v →
      OverlayState.storage base_storage ⟨b, c⟩ a s = .ok v) ∧
    (∀ u, c.accounts a = some u → u.selfdestructed = false → u.storage s = none →
      u.created = true →
      OverlayState.storage base_storage ⟨b, c⟩ a s = .ok 0) ∧
    (∀ u, c.accounts a = some u → u.selfdestructed = false → u.storage s = none →
      u.created = false →
      OverlayState.storage base_storage ⟨b, c⟩ a s = base_storage b a s) ∧
    (c.accounts a = none →
      OverlayState.storage base_storage ⟨b, c⟩ a s = base_storage b a s) := by
  refine ⟨?_, ?_, ?_, ?_, ?_⟩
  · intro u hu hsd
    simp [OverlayState.storage, hu, hsd]
  · intro u v hu hsd hv
    simp [OverlayState.storage, hu, hsd, hv]
  · intro u hu hsd hs hc
    simp [OverlayState.storage, hu, hsd, hs, hc]
  · intro u hu hsd hs hc
    simp [OverlayState.storage, hu, hsd, hs, hc]
  · intro hnone
    simp [OverlayState.storage, hnone]

/-- C4: an overlay on an overlay behaves exactly like one overlay holding
the fully merged delta — `commit` (respectively `compute_root`) with caller
Change Set `c` on `OverlayState(OverlayState(s, c1), c2)` delegates to the
base `s` the same merged Change Set, `merge(c1, merge(c2, c))`, as it does
on `OverlayState(s, merge(c1, c2))`. -/
theorem overlay_nested_commit_equiv (S : Type)
    (base_commit : S → ChangeSet → Except StateDbError Hash)
    (base_compute : S → ChangeSet → Except StateDbError Hash)
    (s : S) (c1 c2 c : ChangeSet) :
    OverlayState.commit (OverlayState.commit base_commit) ⟨⟨s, c1⟩, c2⟩ c
      = OverlayState.commit base_commit ⟨s, ChangeSet.merge c1 c2⟩ c ∧
    OverlayState.commit (OverlayState.commit base_commit) ⟨⟨s, c1⟩, c2⟩ c
      = base_commit s (ChangeSet.merge c1 (ChangeSet.merge c2 c)) ∧
    OverlayState.compute_root (OverlayState.compute_root base_compute) ⟨⟨s, c1⟩, c2⟩ c
      = OverlayState.compute_root base_compute ⟨s, ChangeSet.merge c1 c2⟩ c ∧
    OverlayState.compute_root (OverlayState.compute_root base_compute) ⟨⟨s, c1⟩, c2⟩ c
      = base_compute s (ChangeSet.merge c1 (ChangeSet.merge c2 c)) := by
  refine ⟨?_, ?_, ?_, ?_⟩ <;>
    simp [OverlayState.commit, OverlayState.compute_root, changeSet_merge_assoc]

/-- Modelled from the spec: `QmdbState`, the `qmdb-ledger` base state an
execution snapshot's overlay view is layered on (`kora_qmdb_ledger` is not
under `src/`). No verified claim reads through a snapshot's `state` field,
so its carrier is irrelevant here and is taken to be `Unit`. -/
def QmdbState : Type := Unit

/-- Cached execution snapshot for one digest (`LedgerSnapshot`,
snapshot_store.rs): parent digest, state view, computed root, and the QMDB
delta produced by executing the block. -/
structure LedgerSnapshot where
  parent : Option Digest
  state : OverlayState QmdbState
  state_root : Hash
  qmdb_changes : ChangeSet

/-- Insertion into a `BTreeMap` embedded as a lookup function: the new
binding silently replaces any previous binding of the same key. -/
def mapInsert {V : Type} (m : Digest → Option V) (d : Digest) (v : V) : Digest → Option V :=
  fun x => if x = d then some v else m x

/-- Insertion into a `BTreeSet` embedded as a membership function. -/
def setInsert (s : Digest → Bool) (d : Digest) : Digest → Bool :=
  fun x => if x = d then true else s x

/-- Removal from a `BTreeSet` embedded as a membership function. -/
def setRemove (s : Digest → Bool) (d : Digest) : Digest → Bool :=
  fun x => if x = d then false else s x

/-- `SnapshotStore` (snapshot_store.rs): snapshots keyed by digest, the set
of digests already persisted to QMDB, and the set of digests currently
being committed. -/
structure SnapshotStore where
  snapshots : Digest → Option LedgerSnapshot
  persisted : Digest → Bool
  persisting : Digest → Bool

/-- `SnapshotStore::new` (snapshot_store.rs). -/
def SnapshotStore.new (genesis_digest : Digest) (genesis_snapshot : LedgerSnapshot) :
    SnapshotStore :=
  { snapshots := mapInsert (fun _ => none) genesis_digest genesis_snapshot
    persisted := setInsert (fun _ => false) genesis_digest
    persisting := fun _ => false }

/-- `SnapshotStore::get` (snapshot_store.rs). -/
def SnapshotStore.get (st : SnapshotStore) (digest : Digest) : Option LedgerSnapshot :=
  st.snapshots digest

/-- `SnapshotStore::insert` (snapshot_store.rs lines 52–54). -/
def SnapshotStore.insert (st : SnapshotStore) (digest : Digest) (snapshot : LedgerSnapshot) :
    SnapshotStore :=
  { st with snapshots := mapInsert st.snapshots digest snapshot }

/-- `SnapshotStore::is_persisted` (snapshot_store.rs, test helper). -/
def SnapshotStore.is_persisted (st : SnapshotStore) (digest : Digest) : Bool :=
  st.persisted digest

/-- `SnapshotStore::can_persist_chain` (snapshot_store.rs lines 62–66): true
iff every digest in the chain is neither persisted nor in-flight. -/
def SnapshotStore.can_persist_chain (st : SnapshotStore) (chain : List Digest) : Bool :=
  chain.all fun digest => !st.persisted digest && !st.persisting digest

/-- `SnapshotStore::mark_persisting_chain` (snapshot_store.rs lines 68–72). -/
def SnapshotStore.mark_persisting_chain (st : SnapshotStore) (chain : List Digest) :
    SnapshotStore :=
  chain.foldl (fun acc digest => { acc with persisting := setInsert acc.persisting digest }) st

/-- `SnapshotStore::clear_persisting_chain` (snapshot_store.rs lines 74–78). -/
def SnapshotStore.clear_persisting_chain (st : SnapshotStore) (chain : List Digest) :
    SnapshotStore :=
  chain.foldl (fun acc digest => { acc with persisting := setRemove acc.persisting digest }) st

/-- `SnapshotStore::mark_persisted_chain` (snapshot_store.rs lines 80–84):
it only inserts into the persisted set; the persisting set is untouched. -/
def SnapshotStore.mark_persisted_chain (st : SnapshotStore) (chain : List Digest) :
    SnapshotStore :=
  chain.foldl (fun acc digest => { acc with persisted := setInsert acc.persisted digest }) st

lemma mark_persisting_chain_fields (chain : List Digest) (st : SnapshotStore) :
    (st.mark_persisting_chain chain).snapshots = st.snapshots ∧
    (st.mark_persisting_chain chain).persisted = st.persisted ∧
    ∀ x, (st.mark_persisting_chain chain).persisting x
      = (st.persisting x || chain.contains x) := by
  induction chain generalizing st with
  | nil => simp [SnapshotStore.mark_persisting_chain]
  | cons d rest ih =>
    obtain ⟨h1, h2, h3⟩ :=
      ih { st with persisting := setInsert st.persisting d }
    refine ⟨h1, h2, ?_⟩
    intro x
    rw [show st.mark_persisting_chain (d :: rest)
        = SnapshotStore.mark_persisting_chain
            { st with persisting := setInsert st.persisting d } rest from rfl]
    rw [h3 x]
    by_cases hx : x = d <;> simp [setInsert, hx]

lemma clear_persisting_chain_fields (chain : List Digest) (st : SnapshotStore) :
    (st.clear_persisting_chain chain).snapshots = st.snapshots ∧
    (st.clear_persisting_chain chain).persisted = st.persisted ∧
    ∀ x, (st.clear_persisting_chain chain).persisting x
      = (st.persisting x && !chain.contains x) := by
  induction chain generalizing st with
  | nil => simp [SnapshotStore.clear_persisting_chain]
  | cons d rest ih =>
    obtain ⟨h1, h2, h3⟩ :=
      ih { st with persisting := setRemove st.persisting d }
    refine ⟨h1, h2, ?_⟩
    intro x
    rw [show st.clear_persisting_chain (d :: rest)
        = SnapshotStore.clear_persisting_chain
            { st with persisting := setRemove st.persisting d } rest from rfl]
    rw [h3 x]
    by_cases hx : x = d <;> simp [setRemove, hx]

lemma mark_persisted_chain_fields (chain : List Digest) (st : SnapshotStore) :
    (st.mark_persisted_chain chain).snapshots = st.snapshots ∧
    (st.mark_persisted_chain chain).persisting = st.persisting ∧
    ∀ x, (st.mark_persisted_chain chain).persisted x
      = (st.persisted x || chain.contains x) := by
  induction chain generalizing st with
  | nil => simp [SnapshotStore.mark_persisted_chain]
  | cons d rest ih =>
    obtain ⟨h1, h2, h3⟩ :=
      ih { st with persisted := setInsert st.persisted d }
    refine ⟨h1, h2, ?_⟩
    intro x
    rw [show st.mark_persisted_chain (d :: rest)
        = SnapshotStore.mark_persisted_chain
            { st with persisted := setInsert st.persisted d } rest from rfl]
    rw [h3 x]
    by_cases hx : x = d <;> simp [setInsert, hx]

/-- C10: `SnapshotStore::insert` unconditionally records the snapshot under
the digest, replacing any previous snapshot stored there, and modifies only
the snapshots map: the persisted and persisting sets are untouched. It
holds for every snapshot, in particular one whose parent digest is unknown
to the store — no parent check is performed. -/
theorem snapshot_insert_spec (st : SnapshotStore) (d : Digest) (snap : LedgerSnapshot) :
    ((st.insert d snap).snapshots d = some snap) ∧
    (∀ x, x ≠ d → (st.insert d snap).snapshots x = st.snapshots x) ∧
    ((st.insert d snap).persisted = st.persisted) ∧
    ((st.insert d snap).persisting = st.persisting) := by
  refine ⟨?_, ?_, rfl, rfl⟩
  · simp [SnapshotStore.insert, mapInsert]
  · intro x hx
    simp [SnapshotStore.insert, mapInsert, hx]

/-- C6: for a chain none of whose digests is persisted, marking the chain
persisting and then unwinding it with `clear_persisting_chain` — the failed
commit path — leaves the store in a state where `can_persist_chain` on the
same chain returns true, so the chain is retryable. -/
theorem clear_after_mark_retryable (st : SnapshotStore) (chain : List Digest)
    (h : ∀ d ∈ chain, st.persisted d = false) :
    ((st.mark_persisting_chain chain).clear_persisting_chain chain).can_persist_chain chain
      = true := by
  rw [SnapshotStore.can_persist_chain, List.all_eq_true]
  intro d hd
  obtain ⟨hm1, hm2, hm3⟩ := mark_persisting_chain_fields chain st
  obtain ⟨hc1, hc2, hc3⟩ :=
    clear_persisting_chain_fields chain (st.mark_persisting_chain chain)
  rw [hc3 d, hc2, hm2, h d hd]
  simp [hd]

/-- C6 witness: a concrete two-digest chain, unpersisted in a fresh store,
is retryable after mark-then-clear. -/
theorem clear_after_mark_retryable_witness :
    ((SnapshotStore.mk (fun _ => none) (fun _ => false)
        (fun _ => false)).mark_persisting_chain [1, 2]
      |>.clear_persisting_chain [1, 2]).can_persist_chain [1, 2] = true :=
  clear_after_mark_retryable
    (SnapshotStore.mk (fun _ => none) (fun _ => false) (fun _ => false))
    [1, 2] (fun _ _ => rfl)

/-- C7 counterexample: in a store whose persisting set holds digest 1,
`mark_persisted_chain [1]` adds 1 to the persisted set but leaves 1 in the
persisting set — the digest is not removed from `persisting`, contrary to
the claim's "no longer in the persisting state". -/
theorem mark_persisted_leaves_persisting :
    ((SnapshotStore.mk (fun _ => none) (fun _ => false)
        (fun x => if x = 1 then true else false)).mark_persisted_chain [1]).persisting 1
        = true ∧
    ((SnapshotStore.mk (fun _ => none) (fun _ => false)
        (fun x => if x = 1 then true else false)).mark_persisted_chain [1]).persisted 1
        = true := by
  constructor <;> rfl

/-- C7 amended: after `mark_persisted_chain(chain)` every digest of the
chain is a member of the persisted set (and persisted membership of other
digests, the persisting set and the snapshots map are unchanged); the
digest is not removed from the persisting set — dropping it is left to
`clear_persisting_chain`. -/
theorem mark_persisted_chain_spec (st : SnapshotStore) (chain : List Digest) :
    (∀ d ∈ chain, (st.mark_persisted_chain chain).persisted d = true) ∧
    (∀ x, x ∉ chain → (st.mark_persisted_chain chain).persisted x = st.persisted x) ∧
    ((st.mark_persisted_chain chain).persisting = st.persisting) ∧
    ((st.mark_persisted_chain chain).snapshots = st.snapshots) := by
  obtain ⟨h1, h2, h3⟩ := mark_persisted_chain_fields chain st
  refine ⟨?_, ?_, h2, h1⟩
  · intro d hd
    rw [h3 d]
    simp [hd]
  · intro x hx
    rw [h3 x]
    simp [hx]

/-- Broken-chain errors of `SnapshotStore::merged_changes_for_persist`
(snapshot_store.rs lines 94–103; the source raises them as `anyhow`
messages "missing snapshot" and "missing parent snapshot"). -/
inductive ChainError where
  | missingSnapshot
  | missingParent
deriving DecidableEq

/-- The ancestor-collecting loop of `merged_changes_for_persist`
(snapshot_store.rs lines 96–105): walk parent links from `digest`,
appending each visited digest (newest first), until a persisted digest is
reached. The Rust `while` loop has no intrinsic termination measure, so the
embedding carries a fuel counter; `none` means the loop was still running
when the fuel ran out (an infinite parent cycle), and never occurs on a
finite ancestor walk. -/
def collectChain (st : SnapshotStore) :
    Nat → Digest → List Digest → Option (Except ChainError (List Digest))
  | 0, _, _ => none
  | fuel + 1, digest, chain =>
    if st.persisted digest then some (.ok chain)
    else
      match st.snapshots digest with
      | none => some (.error .missingSnapshot)
      | some snapshot =>
        match snapshot.parent with
        | none => some (.error .missingParent)
        | some parent => collectChain st fuel parent (chain ++ [digest])

/-- The merging loop of `merged_changes_for_persist` (snapshot_store.rs
lines 111–116): fold each chain member's own Change Set, in list order,
into the running merge. -/
def mergeChain (st : SnapshotStore) : List Digest → ChangeSet → Except ChainError ChangeSet
  | [], merged => .ok merged
  | digest :: rest, merged =>
    match st.snapshots digest with
    | none => .error .missingSnapshot
    | some snapshot => mergeChain st rest (merged.merge snapshot.qmdb_changes)

/-- `SnapshotStore::merged_changes_for_persist` (snapshot_store.rs lines
90–117): collect the unpersisted ancestor chain of `digest` (newest first),
return a no-op for an empty chain, otherwise reverse to oldest-first order
and fold the members' Change Sets into one merged set. The function reads
the store and returns a result; it never modifies the store (`&self` in the
source). -/
def mergedChangesForPersist (st : SnapshotStore) (fuel : Nat) (digest : Digest) :
    Option (Except ChainError (List Digest × ChangeSet)) :=
  match collectChain st fuel digest [] with
  | none => none
  | some (.error e) => some (.error e)
  | some (.ok chain) =>
    if chain.isEmpty then some (.ok ([], ChangeSet.empty))
    else
      match mergeChain st chain.reverse ChangeSet.empty with
      | .error e => some (.error e)
      | .ok merged => some (.ok (chain.reverse, merged))

/-- The chain member's own Change Set, read off the store. -/
def changesOf (st : SnapshotStore) (digest : Digest) : ChangeSet :=
  match st.snapshots digest with
  | some snapshot => snapshot.qmdb_changes
  | none => ChangeSet.empty

/-- `WalksTo st d l` says `l` is exactly the unpersisted ancestor walk of
`d`, newest first: either `d` is persisted and the walk is empty, or `d` is
unpersisted, heads the walk, has a snapshot whose parent continues the
walk. A chain `c` in oldest-to-newest order ending at `d` is captured by
`WalksTo st d c.reverse`. -/
inductive WalksTo (st : SnapshotStore) : Digest → List Digest → Prop where
  | nil {d : Digest} (hp : st.persisted d = true) : WalksTo st d []
  | cons {d p : Digest} {snap : LedgerSnapshot} {l : List Digest}
      (hp : st.persisted d = false) (hs : st.snapshots d = some snap)
      (hpar : snap.parent = some p) (hw : WalksTo st p l) : WalksTo st d (d :: l)

/-- `BrokenAt st d e` says the parent walk from `d` reaches, before any
persisted digest, either a digest with no snapshot (`missingSnapshot`) or
an unpersisted digest whose snapshot has no parent link (`missingParent`). -/
inductive BrokenAt (st : SnapshotStore) : Digest → ChainError → Prop where
  | missingSnap {d : Digest} (hp : st.persisted d = false)
      (hs : st.snapshots d = none) : BrokenAt st d .missingSnapshot
  | missingParentLink {d : Digest} {snap : LedgerSnapshot} (hp : st.persisted d = false)
      (hs : st.snapshots d = some snap) (hpar : snap.parent = none) :
      BrokenAt st d .missingParent
  | step {d p : Digest} {snap : LedgerSnapshot} {e : ChainError}
      (hp : st.persisted d = false) (hs : st.snapshots d = some snap)
      (hpar : snap.parent = some p) (hb : BrokenAt st p e) : BrokenAt st d e

lemma collectChain_ok (st : SnapshotStore) :
    ∀ fuel digest acc l, collectChain st fuel digest acc = some (.ok l) →
      ∃ suffix, l = acc ++ suffix ∧ WalksTo st digest suffix := by
  intro fuel
  induction fuel with
  | zero =>
    intro digest acc l h
    simp [collectChain] at h
  | succ n ih =>
    intro digest acc l h
    simp only [collectChain] at h
    by_cases hp : st.persisted digest = true
    · simp only [hp, if_true] at h
      simp only [Option.some.injEq, Except.ok.injEq] at h
      exact ⟨[], by simp [← h], WalksTo.nil hp⟩
    · have hp2 : st.persisted digest = false := by simpa using hp
      simp only [hp2, Bool.false_eq_true, if_false] at h
      split at h
      next => simp at h
      next snap hs =>
        split at h
        next => simp at h
        next p hpar =>
          obtain ⟨suffix, rfl, hw⟩ := ih p (acc ++ [digest]) l h
          exact ⟨digest :: suffix, by simp, WalksTo.cons hp2 hs hpar hw⟩

lemma walksTo_snapshots (st : SnapshotStore) {d : Digest} {l : List Digest}
    (h : WalksTo st d l) : ∀ x ∈ l, ∃ snap, st.snapshots x = some snap := by
  induction h with
  | nil hp => intro x hx; simp at hx
  | cons hp hs hpar hw ih =>
    intro x hx
    rcases List.mem_cons.mp hx with rfl | hx2
    · exact ⟨_, hs⟩
    · exact ih x hx2

lemma mergeChain_ok_fold (st : SnapshotStore) :
    ∀ l m cs, mergeChain st l m = .ok cs →
      cs = l.foldl (fun acc dg => ChangeSet.merge acc (changesOf st dg)) m := by
  intro l
  induction l with
  | nil =>
    intro m cs h
    simp only [mergeChain, Except.ok.injEq] at h
    simpa using h.symm
  | cons d rest ih =>
    intro m cs h
    simp only [mergeChain] at h
    cases hs : st.snapshots d with
    | none => rw [hs] at h; simp at h
    | some snap =>
      rw [hs] at h
      have hres := ih (m.merge snap.qmdb_changes) cs h
      simpa [changesOf, hs] using hres

lemma mergeChain_total (st : SnapshotStore) :
    ∀ l m, (∀ x ∈ l, ∃ snap, st.snapshots x = some snap) →
      ∃ cs, mergeChain st l m = .ok cs := by
  intro l
  induction l with
  | nil => intro m _; exact ⟨m, rfl⟩
  | cons d rest ih =>
    intro m hall
    obtain ⟨snap, hs⟩ := hall d (by simp)
    obtain ⟨cs, hcs⟩ := ih (m.merge snap.qmdb_changes) (fun x hx => hall x (by simp [hx]))
    refine ⟨cs, ?_⟩
    simp only [mergeChain]
    rw [hs]
    exact hcs

lemma collectChain_error (st : SnapshotStore) :
    ∀ fuel digest acc e, collectChain st fuel digest acc = some (.error e) →
      BrokenAt st digest e := by
  intro fuel
  induction fuel with
  | zero => intro digest acc e h; simp [collectChain] at h
  | succ n ih =>
    intro digest acc e h
    simp only [collectChain] at h
    by_cases hp : st.persisted digest = true
    · simp [hp] at h
    · have hp2 : st.persisted digest = false := by simpa using hp
      simp only [hp2, Bool.false_eq_true, if_false] at h
      split at h
      next hs =>
        injection h with h1
        injection h1 with h2
        exact h2 ▸ BrokenAt.missingSnap hp2 hs
      next snap hs =>
        split at h
        next hpar =>
          injection h with h1
          injection h1 with h2
          exact h2 ▸ BrokenAt.missingParentLink hp2 hs hpar
        next p hpar =>
          exact BrokenAt.step hp2 hs hpar (ih p (acc ++ [digest]) e h)

lemma brokenAt_collect (st : SnapshotStore) {d : Digest} {e : ChainError}
    (h : BrokenAt st d e) : ∀ acc, ∃ fuel, collectChain st fuel d acc = some (.error e) := by
  induction h with
  | missingSnap hp hs =>
    intro acc
    exact ⟨1, by simp [collectChain, hp, hs]⟩
  | missingParentLink hp hs hpar =>
    intro acc
    exact ⟨1, by simp [collectChain, hp, hs, hpar]⟩
  | @step d2 p snap e2 hp hs hpar hb ih =>
    intro acc
    obtain ⟨fuel, hf⟩ := ih (acc ++ [d2])
    exact ⟨fuel + 1, by simpa [collectChain, hp, hs, hpar] using hf⟩

lemma merged_error_broken (st : SnapshotStore) (fuel : Nat) (d : Digest) (e : ChainError)
    (h : mergedChangesForPersist st fuel d = some (.error e)) : BrokenAt st d e := by
  rw [mergedChangesForPersist] at h
  cases hc : collectChain st fuel d [] with
  | none => rw [hc] at h; simp at h
  | some r =>
    rw [hc] at h
    cases r with
    | error e2 =>
      injection h with h1
      injection h1 with h2
      exact h2 ▸ collectChain_error st fuel d [] e2 hc
    | ok chain =>
      obtain ⟨suffix, hsuf, hw⟩ := collectChain_ok st fuel d [] chain hc
      simp only [List.nil_append] at hsuf
      subst hsuf
      by_cases hch : chain = []
      · simp [hch] at h
      · have hne : chain.isEmpty = false := by simpa using hch
        simp only [hne, Bool.false_eq_true, if_false] at h
        obtain ⟨cs, hcs⟩ :=
          mergeChain_total st chain.reverse ChangeSet.empty
            (fun x hx => walksTo_snapshots st hw x (List.mem_reverse.mp hx))
        rw [hcs] at h
        simp at h

/-- C1: `merged_changes_for_persist` on an already-persisted digest returns
an empty chain and an empty Change Set; and whenever it succeeds, the
returned chain is the digest's unpersisted ancestor walk in strict
oldest-to-newest order ending at the digest itself (its reverse satisfies
`WalksTo`), and the merged Change Set equals folding each chain member's
own Change Set, oldest first, into an initially empty Change Set. -/
theorem mergedChangesForPersist_chain_spec (st : SnapshotStore) (fuel : Nat) (d : Digest) :
    (st.persisted d = true →
      mergedChangesForPersist st (fuel + 1) d = some (.ok ([], ChangeSet.empty))) ∧
    (∀ chain cs, mergedChangesForPersist st fuel d = some (.ok (chain, cs)) →
      WalksTo st d chain.reverse ∧
      cs = chain.foldl (fun acc dg => ChangeSet.merge acc (changesOf st dg))
            ChangeSet.empty) := by
  constructor
  · intro hp
    simp [mergedChangesForPersist, collectChain, hp]
  · intro chain cs h
    rw [mergedChangesForPersist] at h
    cases hc : collectChain st fuel d [] with
    | none => rw [hc] at h; simp at h
    | some r =>
      rw [hc] at h
      cases r with
      | error e => simp at h
      | ok L =>
        obtain ⟨suffix, hsuf, hw⟩ := collectChain_ok st fuel d [] L hc
        simp only [List.nil_append] at hsuf
        subst hsuf
        by_cases hL : L = []
        · subst hL
          simp only [List.isEmpty_nil, if_true] at h
          simp only [Option.some.injEq, Except.ok.injEq, Prod.mk.injEq] at h
          obtain ⟨h1, h2⟩ := h
          subst h1; subst h2
          exact ⟨hw, rfl⟩
        · have hne : L.isEmpty = false := by simpa using hL
          simp only [hne, Bool.false_eq_true, if_false] at h
          obtain ⟨cs0, hcs⟩ :=
            mergeChain_total st L.reverse ChangeSet.empty
              (fun x hx => walksTo_snapshots st hw x (List.mem_reverse.mp hx))
          rw [hcs] at h
          simp only [Option.some.injEq, Except.ok.injEq, Prod.mk.injEq] at h
          obtain ⟨h1, h2⟩ := h
          subst h1; subst h2
          refine ⟨by simpa using hw, ?_⟩
          exact mergeChain_ok_fold st L.reverse ChangeSet.empty cs0 hcs

/-- C5: `merged_changes_for_persist(digest)` returns a broken-chain error
exactly when the parent walk from the digest reaches, before any persisted
digest, a digest with no snapshot or an unpersisted digest with no parent
link (`BrokenAt`); in every other case a finite ancestor walk (the walk
terminating within some fuel bound) succeeds. The function never modifies
the store: it is a pure function of it, mirroring the `&self` receiver. -/
theorem mergedChangesForPersist_error_spec (st : SnapshotStore) (d : Digest) :
    (∀ fuel e, mergedChangesForPersist st fuel d = some (.error e) → BrokenAt st d e) ∧
    (∀ e, BrokenAt st d e → ∃ fuel, mergedChangesForPersist st fuel d = some (.error e)) ∧
    (∀ fuel r, mergedChangesForPersist st fuel d = some r →
      (∀ e, ¬ BrokenAt st d e) → ∃ chain cs, r = .ok (chain, cs)) := by
  refine ⟨fun fuel e h => merged_error_broken st fuel d e h, ?_, ?_⟩
  · intro e hb
    obtain ⟨fuel, hf⟩ := brokenAt_collect st hb []
    refine ⟨fuel, ?_⟩
    rw [mergedChangesForPersist, hf]
  · intro fuel r h hnb
    cases r with
    | ok p => exact ⟨p.1, p.2, rfl⟩
    | error e => exact absurd (merged_error_broken st fuel d e h) (hnb e)

/-- The keccak256 hash of the empty byte string
(`alloy_primitives::KECCAK256_EMPTY`), written out as a numeral. -/
def KECCAK256_EMPTY : Hash :=
  0xc5d2460186f7233c927e7db2dcc703c0e500b653ca82273b7bfad8045d85a470

/-- Modelled from the spec: `kora_qmdb::QmdbStore` (not under `src/`) —
spec §4.1: three durable key/value partitions (accounts, storage slots,
code), each exposing `get(key) -> Option<Value>`. An account record decodes
to `(nonce, balance, code_hash, generation)`; a storage key is the
`(address, generation, slot)` tuple. -/
structure QmdbStore where
  accounts : Addr → Option (Nat × U256 × Hash × Nat)
  storage : Addr × Nat × Slot → Option U256
  code : Hash → Option Bytes

/-- Thread-safe handle to the QMDB stores
(`src/crates/storage/handlers/src/qmdb.rs`): `Arc<RwLock<QmdbStore>>`,
embedded as the guarded store plus a poisoned flag for the lock. -/
structure QmdbHandle where
  poisoned : Bool
  store : QmdbStore

/-- `QmdbHandle::read` followed by the `map_err(|_| StateDbError::LockPoisoned)`
every reader in state.rs applies: a poisoned lock fails, otherwise the
shared view of the store is returned. -/
def QmdbHandle.read (h : QmdbHandle) : Except StateDbError QmdbStore :=
  if h.poisoned then .error .lockPoisoned else .ok h.store

/-- `StateDbRead::nonce` for `QmdbHandle` (state.rs lines 15–21): a missing
account is an `AccountNotFound` error. -/
def QmdbHandle.nonce (h : QmdbHandle) (address : Addr) : Except StateDbError Nat :=
  match h.read with
  | .error e => .error e
  | .ok store =>
    match store.accounts address with
    | some (nonce, _, _, _) => .ok nonce
    | none => .error (.accountNotFound address)

/-- `StateDbRead::balance` for `QmdbHandle` (state.rs lines 23–29). -/
def QmdbHandle.balance (h : QmdbHandle) (address : Addr) : Except StateDbError U256 :=
  match h.read with
  | .error e => .error e
  | .ok store =>
    match store.accounts address with
    | some (_, balance, _, _) => .ok balance
    | none => .error (.accountNotFound address)

/-- `StateDbRead::code_hash` for `QmdbHandle` (state.rs lines 31–37). -/
def QmdbHandle.code_hash (h : QmdbHandle) (address : Addr) : Except StateDbError Hash :=
  match h.read with
  | .error e => .error e
  | .ok store =>
    match store.accounts address with
    | some (_, _, code_hash, _) => .ok code_hash
    | none => .error (.accountNotFound address)

/-- `StateDbRead::code` for `QmdbHandle` (state.rs lines 39–48): empty bytes
for the empty-code hash or the zero hash without consulting the store; a
missing entry for any other hash is a `CodeNotFound` error. -/
def QmdbHandle.code (h : QmdbHandle) (code_hash : Hash) : Except StateDbError Bytes :=
  if code_hash = KECCAK256_EMPTY ∨ code_hash = 0 then .ok []
  else
    match h.read with
    | .error e => .error e
    | .ok store =>
      match store.code code_hash with
      | some bytes => .ok bytes
      | none => .error (.codeNotFound code_hash)

/-- `StateDbRead::storage` for `QmdbHandle` (state.rs lines 50–65): a
missing account reads as zero; otherwise the slot is looked up under the
account's generation and a missing slot reads as zero. -/
def QmdbHandle.storage (h : QmdbHandle) (address : Addr) (slot : Slot) :
    Except StateDbError U256 :=
  match h.read with
  | .error e => .error e
  | .ok store =>
    match store.accounts address with
    | none => .ok 0
    | some (_, _, _, generation) =>
      .ok ((store.storage (address, generation, slot)).getD 0)

/-- `StateDbWrite::merge_changes` for `QmdbHandle` (state.rs lines
100–103): `older.merge(newer)`. -/
def QmdbHandle.merge_changes (_h : QmdbHandle) (older newer : ChangeSet) : ChangeSet :=
  older.merge newer

/-- A fresh, unpoisoned handle over empty partitions (the shape of the unit
tests' `MemoryStore` handle). -/
def emptyHandle : QmdbHandle :=
  ⟨false, ⟨fun _ => none, fun _ => none, fun _ => none⟩⟩

/-- C8 counterexample: on a handle over empty partitions, a code read for
the missing entry under hash 5 (neither the empty-code hash nor zero) fails
with `CodeNotFound` instead of returning the zero-value fallback (empty
bytes) the claim asserts. -/
theorem code_missing_entry_errors :
    QmdbHandle.code emptyHandle 5 = .error (.codeNotFound 5) ∧
    QmdbHandle.code emptyHandle 5 ≠ .ok [] := by
  have h1 : QmdbHandle.code emptyHandle 5 = .error (.codeNotFound 5) := rfl
  refine ⟨h1, ?_⟩
  rw [h1]
  intro h
  exact Except.noConfusion h

/-- C8 amended: not-found conditions on the handle — a storage read for a
missing account or a missing slot returns zero; account lookups (nonce,
balance, code hash) fail with `AccountNotFound` for a missing account; a
code read returns empty bytes for the empty-code hash or the zero hash
without consulting the store, but a missing code entry under any other hash
fails with `CodeNotFound` rather than returning a fallback. -/
theorem handle_not_found_spec (h : QmdbHandle) (hp : h.poisoned = false)
    (a : Addr) (slot : Slot) (ch : Hash) :
    (h.store.accounts a = none →
      QmdbHandle.nonce h a = .error (.accountNotFound a) ∧
      QmdbHandle.balance h a = .error (.accountNotFound a) ∧
      QmdbHandle.code_hash h a = .error (.accountNotFound a) ∧
      QmdbHandle.storage h a slot = .ok 0) ∧
    (∀ n b chash g, h.store.accounts a = some (n, b, chash, g) →
      h.store.storage (a, g, slot) = none →
      QmdbHandle.storage h a slot = .ok 0) ∧
    ((ch = KECCAK256_EMPTY ∨ ch = 0) → QmdbHandle.code h ch = .ok []) ∧
    (ch ≠ KECCAK256_EMPTY → ch ≠ 0 → h.store.code ch = none →
      QmdbHandle.code h ch = .error (.codeNotFound ch)) := by
  refine ⟨?_, ?_, ?_, ?_⟩
  · intro hacc
    refine ⟨?_, ?_, ?_, ?_⟩ <;>
      simp [QmdbHandle.nonce, QmdbHandle.balance, QmdbHandle.code_hash,
        QmdbHandle.storage, QmdbHandle.read, hp, hacc]
  · intro n b chash g hacc hslot
    simp [QmdbHandle.storage, QmdbHandle.read, hp, hacc, hslot]
  · intro hch
    simp [QmdbHandle.code, hch]
  · intro h1 h2 hmiss
    have hcond : ¬(ch = KECCAK256_EMPTY ∨ ch = 0) := by
      rintro (hc | hc)
      · exact h1 hc
      · exact h2 hc
    simp [QmdbHandle.code, QmdbHandle.read, hcond, hp, hmiss]

/-- C8 amended, instantiated: the fallback behavior at a concrete empty
handle, address 0, slot 0 and code hash 7. -/
theorem handle_not_found_spec_witness :
    (emptyHandle.store.accounts 0 = none →
      QmdbHandle.nonce emptyHandle 0 = .error (.accountNotFound 0) ∧
      QmdbHandle.balance emptyHandle 0 = .error (.accountNotFound 0) ∧
      QmdbHandle.code_hash emptyHandle 0 = .error (.accountNotFound 0) ∧
      QmdbHandle.storage emptyHandle 0 0 = .ok 0) ∧
    (∀ n b chash g, emptyHandle.store.accounts 0 = some (n, b, chash, g) →
      emptyHandle.store.storage (0, g, 0) = none →
      QmdbHandle.storage emptyHandle 0 0 = .ok 0) ∧
    ((7 = KECCAK256_EMPTY ∨ 7 = 0) → QmdbHandle.code emptyHandle 7 = .ok []) ∧
    (7 ≠ KECCAK256_EMPTY → 7 ≠ 0 → emptyHandle.store.code 7 = none →
      QmdbHandle.code emptyHandle 7 = .error (.codeNotFound 7)) :=
  handle_not_found_spec emptyHandle rfl 0 0 7

/-- `StateDbRead::exists`, the trait's default method
(`src/crates/storage/traits/src/state.rs` lines 28–34), over the trait's
`nonce` and `balance` lookups; `||` short-circuits, so the balance is only
consulted when the nonce is zero. -/
def statedb_exists (nonce_of : Addr → Except StateDbError Nat)
    (balance_of : Addr → Except StateDbError U256) (address : Addr) :
    Except StateDbError Bool :=
  match nonce_of address with
  | .ok nonce =>
    if 0 < nonce then .ok true
    else (balance_of address).map fun balance => decide (balance ≠ 0)
  | .error (.accountNotFound _) => .ok false
  | .error e => .error e

/-- C9: `exists` is true exactly when the nonce is positive or the balance
nonzero; an `AccountNotFound` failure of the nonce lookup yields `false`
rather than an error, and any other lookup error is propagated unchanged. -/
theorem statedb_exists_spec (nonce_of : Addr → Except StateDbError Nat)
    (balance_of : Addr → Except StateDbError U256) (a : Addr) :
    (∀ n b, nonce_of a = .ok n → balance_of a = .ok b →
      statedb_exists nonce_of balance_of a = .ok (decide (0 < n) || decide (b ≠ 0))) ∧
    (∀ n, nonce_of a = .ok n → 0 < n →
      statedb_exists nonce_of balance_of a = .ok true) ∧
    (∀ e, nonce_of a = .ok 0 → balance_of a = .error e →
      statedb_exists nonce_of balance_of a = .error e) ∧
    (∀ x, nonce_of a = .error (.accountNotFound x) →
      statedb_exists nonce_of balance_of a = .ok false) ∧
    (∀ e, nonce_of a = .error e → (∀ x, e ≠ .accountNotFound x) →
      statedb_exists nonce_of balance_of a = .error e) := by
  refine ⟨?_, ?_, ?_, ?_, ?_⟩
  · intro n b hn hb
    by_cases hpos : 0 < n
    · simp [statedb_exists, hn, hpos]
    · have hz : n = 0 := by omega
      subst hz
      simp [statedb_exists, hn, hb, Except.map]
  · intro n hn hpos
    simp [statedb_exists, hn, hpos]
  · intro e hn hb
    simp [statedb_exists, hn, hb, Except.map]
  · intro x hx
    simp [statedb_exists, hx]
  · intro e he hne
    cases e with
    | accountNotFound x => exact absurd rfl (hne x)
    | codeNotFound c => simp [statedb_exists, he]
    | storage m => simp [statedb_exists, he]
    | lockPoisoned => simp [statedb_exists, he]
    | rootComputation m => simp [statedb_exists, he]

end Monmouth
